import Mathlib

/-
Verification of the parametric solid-modeling helper layer in
mechanics/utilities.py of the smallopticalsorter repository.

Each definition is a shallow embedding of the corresponding Python function.
Python floats are modelled as exact rationals, or as reals where square
roots and trigonometry occur; Python None is modelled with Option; raised
exceptions are modelled with Except or Option. The third-party CAD kernel
(CadQuery) is not part of the repository; where a helper calls into the
kernel, the kernel primitive is modelled explicitly and the model is
documented at its definition site.
-/

namespace TW

/-- Model of a Python argument value that may be None, a 3-tuple of numbers,
or a value of some other type (which transformedWorkplane treats as a type
error). -/
inductive Arg where
  | pynone : Arg
  | tup : ℚ × ℚ × ℚ → Arg
  | other : Arg
deriving DecidableEq

/-- Model of the exceptions transformedWorkplane can raise. The valueError
constructors correspond to the three distinct raise statements in the source
(lines 357, 363, 369, 375 of mechanics/utilities.py; the messages are, in
order: "A 3-tuple offset is redundant to per-axis offsets, and mutually
exclusive.", "Wrong type supplied for offset.", "A 3-tuple offset is
redundant to per-axis rotations, and mutually exclusive.", "Wrong type
supplied for rotate."). typeError models the Python TypeError raised when
unpacking a non-iterable value, or when CadQuery does arithmetic on None. -/
inductive PyError where
  | valueErrorOffsetRedundant : PyError
  | valueErrorOffsetWrongType : PyError
  | valueErrorRotateRedundant : PyError
  | valueErrorRotateWrongType : PyError
  | typeError : PyError
deriving DecidableEq

/-- True for the errors modelling a Python ValueError. -/
def PyError.isValueError : PyError → Bool
  | .typeError => false
  | _ => true

/-- Model of the centerOption parameter of Workplane.workplane. -/
inductive CenterOption where
  | projectedOrigin : CenterOption
  | centerOfMass : CenterOption
  | centerOfBoundBox : CenterOption
deriving DecidableEq

/-- Model of the workplane produced by the final statement of
transformedWorkplane (lines 377 to 381), namely
self.workplane(invert, centerOption, origin).transformed(rotate, offset),
recording the arguments handed to the kernel. -/
structure NewWorkplane where
  invert : Bool
  centerOption : CenterOption
  origin : Option (ℚ × ℚ × ℚ)
  rotate : ℚ × ℚ × ℚ
  offset : ℚ × ℚ × ℚ
deriving DecidableEq

/-- Model of the offset-argument block of transformedWorkplane (lines 353 to
363): a tuple offset is accepted only when no per-axis offset is given; a
None offset defaults each per-axis offset to 0; any other type raises. -/
def offsetBlock (offset : Arg) (offset_x offset_y offset_z : Option ℚ) :
    Except PyError (Option ℚ × Option ℚ × Option ℚ) :=
  match offset with
  | .tup (a, b, c) =>
      if offset_x = none ∧ offset_y = none ∧ offset_z = none then
        .ok (some a, some b, some c)
      else
        .error .valueErrorOffsetRedundant
  | .pynone =>
      .ok (some (offset_x.getD 0), some (offset_y.getD 0), some (offset_z.getD 0))
  | .other => .error .valueErrorOffsetWrongType

/-- Model of the final call chain of transformedWorkplane (lines 377 to 381).
Each of the six per-axis locals may still hold Python None at this point; in
that case CadQuery raises a TypeError when Workplane.transformed applies
arithmetic to a None tuple component. -/
def finishTransformed (invert : Bool) (centerOption : CenterOption)
    (origin : Option (ℚ × ℚ × ℚ))
    (ox oy oz rx ry rz : Option ℚ) : Except PyError NewWorkplane :=
  match ox, oy, oz, rx, ry, rz with
  | some a, some b, some c, some d, some e, some f =>
      .ok { invert := invert, centerOption := centerOption, origin := origin,
            rotate := (d, e, f), offset := (a, b, c) }
  | _, _, _, _, _, _ => .error .typeError

/-- Shallow embedding of transformedWorkplane (mechanics/utilities.py, lines
311 to 381), including the slip on line 367 where the rotate-tuple branch
executes the statement unpacking the offset argument into the offset locals,
instead of unpacking the rotate argument into the rotate locals. -/
def transformedWorkplane
    (offset : Arg) (rotate : Arg) (invert : Bool)
    (offset_x offset_y offset_z : Option ℚ)
    (rotate_x rotate_y rotate_z : Option ℚ)
    (centerOption : CenterOption) (origin : Option (ℚ × ℚ × ℚ)) :
    Except PyError NewWorkplane :=
  match offsetBlock offset offset_x offset_y offset_z with
  | .error e => .error e
  | .ok (ox, oy, oz) =>
      match rotate with
      | .tup _ =>
          if rotate_x = none ∧ rotate_y = none ∧ rotate_z = none then
            -- Line 367 of the source reads: (offset_x, offset_y, offset_z) = offset.
            -- Unpacking Python None (or any other non-iterable) raises a TypeError;
            -- unpacking a tuple offset reassigns the offset locals and leaves the
            -- rotate locals as None.
            match offset with
            | .tup (a, b, c) =>
                finishTransformed invert centerOption origin
                  (some a) (some b) (some c) rotate_x rotate_y rotate_z
            | _ => .error .typeError
          else
            .error .valueErrorRotateRedundant
      | .pynone =>
          finishTransformed invert centerOption origin ox oy oz
            (some (rotate_x.getD 0)) (some (rotate_y.getD 0)) (some (rotate_z.getD 0))
      | .other => .error .valueErrorRotateWrongType

end TW

namespace SplitCut

/-- Model of a CadQuery solid as seen by direction selectors: the center of
its bounding box, which DirectionMinMaxSelector and the string selectors use
to order solids along a direction. -/
structure Solid where
  center : ℚ × ℚ × ℚ
deriving DecidableEq

/-- Dot product of two 3-vectors of rationals. -/
def dot (u v : ℚ × ℚ × ℚ) : ℚ :=
  u.1 * v.1 + u.2.1 * v.2.1 + u.2.2 * v.2.2

/-- Componentwise difference of two 3-vectors of rationals. -/
def vsub (u v : ℚ × ℚ × ℚ) : ℚ × ℚ × ℚ :=
  (u.1 - v.1, u.2.1 - v.2.1, u.2.2 - v.2.2)

/-- Model of the CadQuery direction-extreme selection applied to solids: it
keeps the solids whose center attains the extreme value along the direction
d (directionMax true for the greater-than string form, false for the
less-than form). The string selectors of the kernel always measure along
GLOBAL axes. -/
def selectExtreme (d : ℚ × ℚ × ℚ) (directionMax : Bool) (solids : List Solid) : List Solid :=
  solids.filter fun s => solids.all fun t =>
    if directionMax then dot t.center d ≤ dot s.center d
    else dot s.center d ≤ dot t.center d

/-- Shallow embedding of splitcut (mechanics/utilities.py, lines 477 to 514).
The kernel cut of the solid by the thin box placed at the current workplane
is a CadQuery operation, modelled by its outcome: the parameter pieces is
the list of solids the cut produced (result.solids().objects in the source).
The embedding returns the object list of the returned workplane, or none
where the Python function falls through all branches and returns None. The
selection branches use the string selectors of the source, which compare
along the global z axis (0, 0, 1). -/
def splitcut (pieces : List Solid) (keepTop keepBottom : Bool) : Option (List Solid) :=
  if pieces.length = 2 then
    if keepTop = true ∧ keepBottom = true then some pieces
    else if keepTop = true ∧ keepBottom = false then
      some (selectExtreme (0, 0, 1) true pieces)
    else if keepTop = false ∧ keepBottom = true then
      some (selectExtreme (0, 0, 1) false pieces)
    else none
  else some pieces

/-- Signed position of a solid relative to the cutting plane, measured along
the local z axis of the cutting workplane: positive exactly for a piece on
the positive local z side. -/
def localZSide (planeOrigin planeNormal : ℚ × ℚ × ℚ) (s : Solid) : ℚ :=
  dot (vsub s.center planeOrigin) planeNormal

end SplitCut

namespace UProf

/-- One drawing call recorded while building a 2D profile. The arguments are
the exact numbers handed to the CadQuery sketching primitive, so equal
traces denote equal outlines. -/
inductive PathStep where
  | move : ℚ → ℚ → PathStep
  | vLine : ℚ → PathStep
  | hLine : ℚ → PathStep
  | lineTo : ℚ → ℚ → PathStep
  | sagittaArc : ℚ × ℚ → ℚ → PathStep
  | close : PathStep
deriving DecidableEq

/-- Shallow embedding of sagittaArcOrLine (mechanics/utilities.py, lines 182
to 194): a straight line to the end point when the sagitta is zero, else a
sagitta arc. -/
def sagittaArcOrLine (endPoint : ℚ × ℚ) (sag : ℚ) : PathStep :=
  if sag = 0 then .lineTo endPoint.1 endPoint.2 else .sagittaArc endPoint sag

/-- The outline returned by uProfile: the trace of drawing calls on the
incoming workplane, followed by the distance handed to the final offset2D
inflation (whose kind argument is the constant arc). -/
structure Outline where
  steps : List PathStep
  offsetDistance : ℚ
deriving DecidableEq

/-- Shallow embedding of uProfile (mechanics/utilities.py, lines 197 to
265): the wall centerline is drawn, a parallel hairline return path closes
the loop, and the loop is inflated by half the wall thickness. The local
variable nothing is 0.01 in the source. -/
def uProfile (w straight_h rounded_h wall_thickness : ℚ) : Outline :=
  let nothing : ℚ := 1 / 100
  let straight_h := if straight_h ≤ wall_thickness then wall_thickness + nothing else straight_h
  { steps :=
      [ .move (-w / 2 + wall_thickness / 2) (-wall_thickness / 2),
        .vLine (-straight_h + wall_thickness),
        sagittaArcOrLine (w / 2 - wall_thickness / 2, -straight_h + wall_thickness / 2)
          (-rounded_h),
        .vLine (straight_h - wall_thickness),
        .hLine (-nothing),
        .vLine (-straight_h + wall_thickness),
        sagittaArcOrLine
          (-w / 2 + wall_thickness / 2 + nothing, -straight_h + wall_thickness / 2 - nothing)
          rounded_h,
        .vLine (straight_h - wall_thickness),
        .close ],
    offsetDistance := wall_thickness / 2 }

end UProf

namespace Bracket

/-- Shallow embedding of the inner function hole_coordinates of the bracket
plugin (mechanics/utilities.py, lines 1308 to 1338). Python float division
by zero raises ZeroDivisionError, modelled by none. -/
def hole_coordinates (width height : ℚ) (hole_count : ℕ) : Option (List (ℚ × ℚ)) :=
  let line_length := max width height
  let hole_hole_distance_factor : ℚ := 1
  let hole_edge_distance_factor : ℚ := 1 / 2
  let distance_count :=
    hole_hole_distance_factor * ((hole_count : ℚ) - 1) + hole_edge_distance_factor * 2
  if distance_count = 0 then none
  else
    let distance_unit := line_length / distance_count
    let hole_hole_distance := hole_hole_distance_factor * distance_unit
    let hole_edge_distance := hole_edge_distance_factor * distance_unit
    let second_dimension_position := min width height / 2
    some ((List.range hole_count).map fun column =>
      if height < width then
        (hole_edge_distance + (column : ℚ) * hole_hole_distance, second_dimension_position)
      else
        (second_dimension_position, hole_edge_distance + (column : ℚ) * hole_hole_distance))

end Bracket

namespace NutHole

/-- Model of the CadQuery Workplane.polygon primitive: the vertices of a
regular polygon with the given number of sides, inscribed in a circle of
the given diameter, centered on the workplane origin. -/
noncomputable def polygon (nSides : ℕ) (diameter : ℝ) : List (ℝ × ℝ) :=
  (List.range nSides).map fun i =>
    (diameter / 2 * Real.cos (2 * Real.pi * i / nSides),
     diameter / 2 * Real.sin (2 * Real.pi * i / nSides))

/-- The hexagon base polygon cut by nut_hole (mechanics/utilities.py, line
1749): a 6-sided polygon whose excircle diameter is 2 * size / sqrt 3,
derived in the source comment from the size across flats. -/
noncomputable def nut_hole_hex (size : ℝ) : List (ℝ × ℝ) :=
  polygon 6 (2 * size / Real.sqrt 3)

/-- The hexagon base polygon of the hexagonal branch of the inner bolthead
plugin of bolt (mechanics/utilities.py, line 1878). -/
noncomputable def bolthead_hex (size : ℝ) : List (ℝ × ℝ) :=
  polygon 6 (2 * size / Real.sqrt 3)

/-- The hexagon base polygon of the inner nut_if plugin of bolt
(mechanics/utilities.py, line 1885). -/
noncomputable def nut_if_hex (size : ℝ) : List (ℝ × ℝ) :=
  polygon 6 (2 * size / Real.sqrt 3)

/-- A point of 3D space, as plane coordinates paired with the height over
the plane. -/
abbrev Point3 : Type := (ℝ × ℝ) × ℝ

/-- A solid, as its set of points. -/
abbrev Solid3 : Type := Set Point3

/-- Objects a CadQuery stack can hold, as far as nut_hole observes them: a
solid, or a vertex serving as a cutting location for cutEach. -/
inductive Obj where
  | solid : Solid3 → Obj
  | vertex : Point3 → Obj

/-- Model of a Workplane as nut_hole uses it: the object stack plus the
solid of the modelling context. -/
structure Workplane where
  objects : List Obj
  ctxSolid : Option Solid3

/-- Model of Workplane.findSolid: the first solid on the stack, else the
solid of the modelling context; None models the ValueError raised when no
solid can be found. -/
def findSolid (s : Workplane) : Option Solid3 :=
  match s.objects.filterMap (fun o =>
      match o with | .solid sol => some sol | .vertex _ => none) with
  | sol :: _ => some sol
  | [] => s.ctxSolid

/-- The filled hexagon region bounded by the nut_hole polygon: the convex
hull of its vertices. -/
def hexRegion (size : ℝ) : Set (ℝ × ℝ) :=
  convexHull ℝ {p | p ∈ nut_hole_hex size}

/-- Rotation of a plane point about the origin by an angle in degrees,
modelling Workplane.rotate about the axis from (0, 0, -1) to (0, 0, 1). -/
noncomputable def rotZ (angleDegrees : ℝ) (p : ℝ × ℝ) : ℝ × ℝ :=
  (p.1 * Real.cos (angleDegrees * Real.pi / 180) - p.2 * Real.sin (angleDegrees * Real.pi / 180),
   p.1 * Real.sin (angleDegrees * Real.pi / 180) + p.2 * Real.cos (angleDegrees * Real.pi / 180))

/-- The cutting solid nut_hole builds before cutEach: the hexagon extruded
from the workplane downward by length (extrude with a negated argument),
then rotated about the local z axis. -/
noncomputable def nutCutter (size length rotation : ℝ) : Solid3 :=
  Set.image (fun pz : Point3 => (rotZ rotation pz.1, pz.2))
    (Set.prod (hexRegion size) (Set.Icc (-length) 0))

/-- Translation of a solid to a cutting location, modelling
Solid.moved(loc). -/
def movedTo (loc : Point3) (s : Solid3) : Solid3 :=
  Set.image (fun pz : Point3 => ((pz.1.1 + loc.1.1, pz.1.2 + loc.1.2), pz.2 + loc.2)) s

/-- The cutting location of a stack object, as cutEach with useLocalCoords
uses it: a vertex contributes its own position; a solid is modelled at the
local origin. -/
def locOf : Obj → Point3
  | .vertex p => p
  | .solid _ => ((0, 0), 0)

/-- Errors nut_hole can surface: the ValueError of findSolid when no solid
is present. -/
inductive Err where
  | noSolid : Err
deriving DecidableEq

/-- Shallow embedding of nut_hole (mechanics/utilities.py, lines 1721 to
1757). With condition equal to Python False the function returns a new
workplane holding just the solid that findSolid locates, untouched;
otherwise it defaults the rotation to 0, builds the hexagonal cutter and
cuts it from the found solid at every stack location (cutEach). -/
def nut_hole (size length : ℝ) (rotation : Option ℝ) (condition : Option Bool)
    (s : Workplane) : Except Err Workplane :=
  if condition ≠ none ∧ condition = some false then
    match findSolid s with
    | some sol => .ok { s with objects := [.solid sol] }
    | none => .error .noSolid
  else
    match findSolid s with
    | none => .error .noSolid
    | some sol =>
        let cutter := nutCutter size length (rotation.getD 0)
        let newSol := s.objects.foldl (fun acc o => acc \ movedTo (locOf o) cutter) sol
        .ok { s with objects := [.solid newSol], ctxSolid := some newSol }

end NutHole

namespace WireAlg

/-- A point of the plane, in the coordinates of the common local frame of a
coplanar wire set. -/
abbrev P2 : Type := ℝ × ℝ

/-- A point of space: plane coordinates paired with the height along the
common extrusion direction (the frame normal). -/
abbrev P3 : Type := (ℝ × ℝ) × ℝ

/-- Model of a closed CadQuery wire as the wire set-algebra plugins use it:
the plane region it encloses, expressed in the common local frame, together
with its position z along the frame normal. The normal of every wire in one
pending set is the frame normal, which is the extrusion direction the
plugins use. -/
structure Wire where
  region : Set P2
  z : ℝ

instance : Inhabited Wire := ⟨⟨∅, 0⟩⟩

/-- Model of a pending edge: a curve fragment awaiting assembly into wires.
The wire set-algebra plugins never inspect one; they only hand the pending
edges to the kernel consolidation and clear the list afterwards. -/
structure Edge where
  startPoint : P3
  endPoint : P3

/-- Objects a CadQuery stack can hold, as far as the wire set-algebra
plugins observe them. -/
inductive Obj where
  | wire : Wire → Obj
  | solid : Set P3 → Obj

/-- Model of a Workplane as the wire set-algebra plugins use it: the object
stack plus the pending 2D state of the modelling context. -/
structure Workplane where
  objects : List Obj
  pendingWires : List Wire
  pendingEdges : List Edge

/-- The prism obtained by extruding a wire by 1 unit along the frame
normal, modelling add(wire).toPending().extrude(1). -/
def prism (w : Wire) : Set P3 :=
  Set.prod w.region (Set.Icc w.z (w.z + 1))

/-- Union of a list of solids, modelling the stack of extruded solids fused
by combine(). -/
def combineSolids (l : List (Set P3)) : Set P3 :=
  l.foldr (fun a b => a ∪ b) ∅

/-- The heights at which a solid has points. -/
def zSupport (S : Set P3) : Set ℝ :=
  {t | ∃ p : P2, ((p, t) : P3) ∈ S}

/-- The planar cross-section of a solid at a given height. -/
def sliceAt (S : Set P3) (t : ℝ) : Set P2 :=
  {p | ((p, t) : P3) ∈ S}

/-- Model of the face and boundary-wire extraction used by the plugins,
faces(DirectionMinMaxSelector(extrude_direction, directionMax = False))
followed by wires(). The selector picks the planar face (or faces, for a
disconnected solid) at the minimum height along the extrusion direction:
the cross-section at the infimum of the height support. wires() then
returns the boundary wires of that face: one wire per connected component
of the face plus one per hole, each carrying the region it encloses, in the
unspecified order the kernel produces. This decomposition is third-party
kernel behavior and is handed in as the parameter decompose, which maps the
face region to the list of enclosed regions of its boundary wires. -/
noncomputable def bottomFaceWires (decompose : Set P2 → List (Set P2))
    (S : Set P3) : List Wire :=
  (decompose (sliceAt S (sInf (zSupport S)))).map fun r => ⟨r, sInf (zSupport S)⟩

/-- Shallow embedding of union_pending (mechanics/utilities.py, lines 620 to
680). The kernel-internal consolidation self._consolidateWires(), which
assembles the pending edges and pending wires of the modelling context into
closed wires, is third-party CadQuery code and is handed in as the
parameter cons; the boundary-wire decomposition of the kernel is the
parameter decompose as in bottomFaceWires. Fewer than 2 consolidated wires
is a no-op; otherwise every wire is extruded 1 unit into a solid, the
solids are fused by the 3D boolean union, the boundary wires of the face at
the minimum along the extrusion direction are extracted, all of them are
placed on the stack (newObject(combined_wire.vals())), but the pending
wires are replaced by ONLY THE FIRST of them: line 678 of the source reads
self.ctx.pendingWires = [combined_wire.val()]. -/
noncomputable def union_pending (cons : List Edge → List Wire → List Wire)
    (decompose : Set P2 → List (Set P2)) (s : Workplane) : Workplane :=
  let wires := cons s.pendingEdges s.pendingWires
  if wires.length < 2 then s
  else
    let solids := combineSolids (wires.map prism)
    let combined := bottomFaceWires decompose solids
    { objects := combined.map Obj.wire,
      pendingWires := [combined.headI],
      pendingEdges := [] }

/-- Shallow embedding of difference_pending (mechanics/utilities.py, lines
711 to 765): as union_pending, but the prism of the first consolidated wire
is cut by the prisms of all the others, and the pending wires are replaced
by ALL boundary wires of the bottom face (difference_wires.vals() on line
763, several when the difference has holes). -/
noncomputable def difference_pending (cons : List Edge → List Wire → List Wire)
    (decompose : Set P2 → List (Set P2)) (s : Workplane) : Workplane :=
  let wires := cons s.pendingEdges s.pendingWires
  if wires.length < 2 then s
  else
    let first_wire := wires.headI
    let other_wires := wires.tail
    let solid := other_wires.foldl (fun acc w => acc \ prism w) (prism first_wire)
    let difference_wires := bottomFaceWires decompose solid
    { objects := difference_wires.map Obj.wire,
      pendingWires := difference_wires,
      pendingEdges := [] }

/-- Shallow embedding of combine_wires (mechanics/utilities.py, lines 534 to
589): the same lift-and-union technique, applied to the wires on the stack
instead of the pending wires; the pending state of the modelling context is
not touched and the stack is replaced by the combined boundary wires. -/
noncomputable def combine_wires (decompose : Set P2 → List (Set P2))
    (s : Workplane) : Workplane :=
  let wires := s.objects.filterMap fun o =>
    match o with | .wire w => some w | .solid _ => none
  if wires.length < 2 then s
  else
    let solids := combineSolids (wires.map prism)
    let combined := bottomFaceWires decompose solids
    { s with objects := combined.map Obj.wire }

open Classical in
/-- One concrete behavior of the kernel's boundary-wire decomposition, used
to exhibit what union_pending does on a disconnected 2D union: on the face
whose region is the disjoint union of the components A and B it returns the
two component boundary wires, in this order (the kernel returns one
boundary wire per connected component of the face); on any other face it
returns the single boundary wire of the face. -/
noncomputable def componentDecompose (A B : Set P2) : Set P2 → List (Set P2) :=
  fun r => if r = A ∪ B then [A, B] else [r]

end WireAlg

-- =========================================================================
-- Theorems
-- =========================================================================

namespace TW

/-- The offset block only fails with a ValueError, never a TypeError. -/
theorem offsetBlock_error_isValueError (offset : Arg) (ox oy oz : Option ℚ)
    (e : PyError) (h : offsetBlock offset ox oy oz = .error e) :
    e.isValueError = true := by
  cases offset with
  | pynone => simp [offsetBlock] at h
  | tup t =>
      obtain ⟨a, b, c⟩ := t
      by_cases hc : ox = none ∧ oy = none ∧ oz = none
      · simp [offsetBlock, hc] at h
      · simp [offsetBlock, hc] at h
        simp [← h, PyError.isValueError]
  | other =>
      simp [offsetBlock] at h
      simp [← h, PyError.isValueError]

/-- C1: the claim states that calling transformedWorkplane with rotate given
as the 3-tuple (a, b, c), offset and the per-axis parameters left at their
defaults, returns the same new workplane as calling it with rotate_x = a,
rotate_y = b, rotate_z = c. On the code this is false: the rotate-tuple
branch (line 367) unpacks the offset argument, which is None at that point,
so the call raises a TypeError, while the per-axis call succeeds and rotates
by (a, b, c) with zero offset. Shown here at (a, b, c) = (45, 0, 0). -/
theorem transformedWorkplane_rotate_tuple_diverges :
    transformedWorkplane .pynone (.tup (45, 0, 0)) false
        none none none none none none .projectedOrigin none
      = .error .typeError
    ∧ transformedWorkplane .pynone .pynone false
        none none none (some 45) (some 0) (some 0) .projectedOrigin none
      = .ok { invert := false, centerOption := .projectedOrigin, origin := none,
              rotate := (45, 0, 0), offset := (0, 0, 0) } :=
  ⟨rfl, rfl⟩

/-- C8: every call of transformedWorkplane that supplies offset both as a
3-tuple and as a non-None per-axis offset, or rotate both as a 3-tuple and
as a non-None per-axis rotation, fails immediately with a ValueError, before
any workplane is constructed (the result is an error, never a workplane). -/
theorem transformedWorkplane_both_forms_valueError
    (offset rotate : Arg) (invert : Bool)
    (ox oy oz rx ry rz : Option ℚ) (co : CenterOption) (origin : Option (ℚ × ℚ × ℚ))
    (h : ((∃ t, offset = .tup t) ∧ (ox ≠ none ∨ oy ≠ none ∨ oz ≠ none)) ∨
         ((∃ t, rotate = .tup t) ∧ (rx ≠ none ∨ ry ≠ none ∨ rz ≠ none))) :
    ∃ e, transformedWorkplane offset rotate invert ox oy oz rx ry rz co origin = .error e
      ∧ e.isValueError = true := by
  rcases h with ⟨⟨t, ho⟩, hne⟩ | ⟨⟨t, hr⟩, hne⟩
  · subst ho
    obtain ⟨a, b, c⟩ := t
    have hcond : ¬(ox = none ∧ oy = none ∧ oz = none) := by
      rcases hne with h1 | h1 | h1 <;> tauto
    have hblock : offsetBlock (.tup (a, b, c)) ox oy oz = .error .valueErrorOffsetRedundant := by
      simp [offsetBlock, hcond]
    refine ⟨.valueErrorOffsetRedundant, ?_, rfl⟩
    simp [transformedWorkplane, hblock]
  · subst hr
    have hcond : ¬(rx = none ∧ ry = none ∧ rz = none) := by
      rcases hne with h1 | h1 | h1 <;> tauto
    cases hblock : offsetBlock offset ox oy oz with
    | error e =>
        refine ⟨e, ?_, offsetBlock_error_isValueError offset ox oy oz e hblock⟩
        simp [transformedWorkplane, hblock]
    | ok triple =>
        obtain ⟨a, b, c⟩ := triple
        refine ⟨.valueErrorRotateRedundant, ?_, rfl⟩
        simp [transformedWorkplane, hblock, hcond]

/-- Witness for C8 at a concrete input: offset supplied both as the tuple
(1, 2, 3) and as offset_x = 1. -/
theorem transformedWorkplane_both_forms_valueError_witness :
    ∃ e, transformedWorkplane (.tup (1, 2, 3)) .pynone false
        (some 1) none none none none none .projectedOrigin none = .error e
      ∧ e.isValueError = true :=
  transformedWorkplane_both_forms_valueError _ _ _ _ _ _ _ _ _ _ _
    (Or.inl ⟨⟨(1, 2, 3), rfl⟩, Or.inl (Option.some_ne_none 1)⟩)

end TW

namespace SplitCut

/-- C2 (code bug evidence): take a cutting workplane that is inverted, so
its local z axis is the global direction (0, 0, -1), and a solid split into
a piece centered at global z = 1 and a piece centered at global z = -1. The
piece on the positive side of the cutting workplane's local z axis is the
one at global z = -1, yet splitcut with keepTop = True and keepBottom =
False returns the piece at global z = 1: the selection measures along the
global z axis, contradicting the docstring, which promises z coordinates of
the workplane used for cutting. -/
theorem splitcut_keepTop_global_not_local :
    splitcut [⟨(0, 0, 1)⟩, ⟨(0, 0, -1)⟩] true false = some [⟨(0, 0, 1)⟩]
    ∧ 0 < localZSide (0, 0, 0) (0, 0, -1) ⟨(0, 0, -1)⟩
    ∧ localZSide (0, 0, 0) (0, 0, -1) ⟨(0, 0, 1)⟩ < 0 := by
  refine ⟨?_, by norm_num [localZSide, vsub, dot], by norm_num [localZSide, vsub, dot]⟩
  simp [splitcut, selectExtreme, dot]

/-- C9: with keepTop = False and keepBottom = False, splitcut returns None
exactly when the kernel cut produced two solids (no selection branch
matches); for any other number of resulting solids the same flag
combination returns a workplane containing all resulting solids. -/
theorem splitcut_keep_nothing (pieces : List Solid) :
    (pieces.length = 2 → splitcut pieces false false = none)
    ∧ (pieces.length ≠ 2 → splitcut pieces false false = some pieces) := by
  constructor
  · intro h; simp [splitcut, h]
  · intro h; simp [splitcut, h]

/-- Witness for C9 at concrete inputs: a two-piece cut yields None, a
one-piece cut yields the workplane with that piece. -/
theorem splitcut_keep_nothing_witness :
    splitcut [⟨(0, 0, 1)⟩, ⟨(0, 0, -1)⟩] false false = none
    ∧ splitcut [⟨(0, 0, 1)⟩] false false = some [⟨(0, 0, 1)⟩] :=
  ⟨(splitcut_keep_nothing _).1 rfl, (splitcut_keep_nothing _).2 (by simp)⟩

end SplitCut

namespace UProf

/-- C5: for every width, rounded height and wall thickness, and every
straight_height strictly below wall_thickness, uProfile produces exactly the
same outline as uProfile with straight_height equal to wall_thickness: the
minimum-height clamp takes effect in both cases, replacing straight_height
by wall_thickness + 0.01. -/
theorem uProfile_clamp (w s r t : ℚ) (h : s < t) :
    uProfile w s r t = uProfile w t r t := by
  simp [uProfile, h.le]

/-- Witness for C5 at concrete measures: width 10, straight height 1,
rounded height 2, wall thickness 3. -/
theorem uProfile_clamp_witness :
    (1 : ℚ) < 3 ∧ uProfile 10 1 2 3 = uProfile 10 3 2 3 :=
  ⟨by decide, uProfile_clamp 10 1 2 3 (by decide)⟩

end UProf

namespace Bracket

/-- C6: for hole_count = 1 and positive width and height, hole_coordinates
divides by distance_count = 1 (no division by zero) and places its single
hole at half the longer dimension along the longer edge and half the
shorter dimension across it, which in both orientation branches is the
point (width / 2, height / 2). -/
theorem hole_coordinates_single (width height : ℚ)
    (hw : 0 < width) (hh : 0 < height) :
    hole_coordinates width height 1 = some [(width / 2, height / 2)] := by
  have hr : List.range 1 = [0] := rfl
  rcases lt_or_le height width with h | h
  · simp [hole_coordinates, h, max_eq_left h.le, min_eq_right h.le, hr, div_eq_inv_mul]
  · simp [hole_coordinates, not_lt.mpr h, max_eq_right h, min_eq_left h, hr, div_eq_inv_mul]

/-- Witness for C6 at a concrete bracket face of width 5 and height 3. -/
theorem hole_coordinates_single_witness :
    hole_coordinates 5 3 1 = some [(5 / 2, 3 / 2)] :=
  hole_coordinates_single 5 3 (by decide) (by decide)

end Bracket

namespace NutHole

/-- Every vertex of the polygon primitive lies at distance half the given
diameter from the center. -/
theorem polygon_vertex_radius (n : ℕ) (d : ℝ) (hd : 0 ≤ d) :
    (polygon n d).Forall fun p => Real.sqrt (p.1 ^ 2 + p.2 ^ 2) = d / 2 := by
  rw [List.forall_iff_forall_mem]
  intro p hp
  simp only [polygon, List.mem_map, List.mem_range] at hp
  obtain ⟨i, -, rfl⟩ := hp
  have hsum : (d / 2 * Real.cos (2 * Real.pi * i / n)) ^ 2
      + (d / 2 * Real.sin (2 * Real.pi * i / n)) ^ 2 = (d / 2) ^ 2 := by
    rw [mul_pow, mul_pow, ← mul_add, Real.cos_sq_add_sin_sq, mul_one]
  rw [hsum, Real.sqrt_sq (by linarith)]

/-- C7: for every nonnegative nut size s measured across flats, the hexagon
generated by nut_hole and the ones generated by the hexagonal bolt-head
branch and the nut branch of bolt are built as 6-sided polygons with
excircle diameter 2 * s / sqrt 3, so all 6 polygon vertices lie at radius
s / sqrt 3 from the hexagon center. -/
theorem hex_vertices_radius (s : ℝ) (hs : 0 ≤ s) :
    nut_hole_hex s = polygon 6 (2 * s / Real.sqrt 3)
    ∧ ((nut_hole_hex s).Forall fun p => Real.sqrt (p.1 ^ 2 + p.2 ^ 2) = s / Real.sqrt 3)
    ∧ ((bolthead_hex s).Forall fun p => Real.sqrt (p.1 ^ 2 + p.2 ^ 2) = s / Real.sqrt 3)
    ∧ ((nut_if_hex s).Forall fun p => Real.sqrt (p.1 ^ 2 + p.2 ^ 2) = s / Real.sqrt 3) := by
  have hd : 0 ≤ 2 * s / Real.sqrt 3 :=
    div_nonneg (by linarith) (Real.sqrt_nonneg 3)
  have hhalf : 2 * s / Real.sqrt 3 / 2 = s / Real.sqrt 3 := by ring
  have hmain : (polygon 6 (2 * s / Real.sqrt 3)).Forall
      fun p => Real.sqrt (p.1 ^ 2 + p.2 ^ 2) = s / Real.sqrt 3 := by
    have h := polygon_vertex_radius 6 (2 * s / Real.sqrt 3) hd
    rw [hhalf] at h
    exact h
  exact ⟨rfl, hmain, hmain, hmain⟩

/-- Witness for C7 at the concrete nut size 3. -/
theorem hex_vertices_radius_witness :
    nut_hole_hex 3 = polygon 6 (2 * 3 / Real.sqrt 3)
    ∧ ((nut_hole_hex 3).Forall fun p => Real.sqrt (p.1 ^ 2 + p.2 ^ 2) = 3 / Real.sqrt 3)
    ∧ ((bolthead_hex 3).Forall fun p => Real.sqrt (p.1 ^ 2 + p.2 ^ 2) = 3 / Real.sqrt 3)
    ∧ ((nut_if_hex 3).Forall fun p => Real.sqrt (p.1 ^ 2 + p.2 ^ 2) = 3 / Real.sqrt 3) :=
  hex_vertices_radius 3 zero_le_three

/-- C10: for every workplane with a findable context solid and all size,
length and rotation values, nut_hole with condition = False returns a
workplane containing just that solid, geometrically unchanged: no hexagonal
pocket is cut and the modelling context is left as it was. -/
theorem nut_hole_condition_false (size length : ℝ) (rotation : Option ℝ)
    (s : Workplane) (sol : Solid3) (h : findSolid s = some sol) :
    nut_hole size length rotation (some false) s
      = .ok { objects := [.solid sol], ctxSolid := s.ctxSolid } := by
  simp [nut_hole, h]

/-- Witness for C10: a workplane whose context solid is the full space,
with an empty stack. -/
theorem nut_hole_condition_false_witness :
    nut_hole 10 7 (some 15) (some false) { objects := [], ctxSolid := some Set.univ }
      = .ok { objects := [.solid Set.univ], ctxSolid := some Set.univ } :=
  nut_hole_condition_false 10 7 (some 15) _ _ rfl

end NutHole

namespace WireAlg

/-- Membership in the fused stack of solids is membership in one of them. -/
theorem mem_combineSolids (l : List (Set P3)) (q : P3) :
    q ∈ combineSolids l ↔ ∃ S ∈ l, q ∈ S := by
  induction l with
  | nil => simp [combineSolids]
  | cons a l ih =>
      show q ∈ a ∪ combineSolids l ↔ _
      simp [Set.mem_union, ih]

/-- Membership in the prism of a wire. -/
theorem mem_prism (w : Wire) (q : P3) :
    q ∈ prism w ↔ q.1 ∈ w.region ∧ q.2 ∈ Set.Icc w.z (w.z + 1) := by
  constructor
  · intro h; exact h
  · intro h; exact h

/-- The prism slice at the base height of the wire is its region. -/
theorem sliceAt_prism_base (w : Wire) : sliceAt (prism w) w.z = w.region := by
  ext p
  simp only [sliceAt, Set.mem_setOf_eq]
  rw [mem_prism]
  simp only [Set.mem_Icc]
  constructor
  · exact fun h => h.1
  · exact fun h => ⟨h, le_refl _, by linarith⟩

/-- The heights of the prism of a wire with a nonempty region form the unit
interval over its base height. -/
theorem zSupport_prism (w : Wire) (h : w.region.Nonempty) :
    zSupport (prism w) = Set.Icc w.z (w.z + 1) := by
  ext t
  simp only [zSupport, Set.mem_setOf_eq]
  constructor
  · rintro ⟨p, hp⟩
    exact ((mem_prism w (p, t)).1 hp).2
  · intro ht
    obtain ⟨p, hp⟩ := h
    exact ⟨p, (mem_prism w (p, t)).2 ⟨hp, ht⟩⟩

/-- Height support of the fused prisms of a nonempty coplanar wire list with
nonempty regions. -/
theorem zSupport_coplanar (l : List Wire) (z0 : ℝ) (hl : l ≠ [])
    (hz : ∀ w ∈ l, w.z = z0) (hne : ∀ w ∈ l, w.region.Nonempty) :
    zSupport (combineSolids (l.map prism)) = Set.Icc z0 (z0 + 1) := by
  ext t
  simp only [zSupport, Set.mem_setOf_eq, mem_combineSolids, List.mem_map]
  constructor
  · rintro ⟨p, S, ⟨w, hw, rfl⟩, hq⟩
    have h2 := ((mem_prism w (p, t)).1 hq).2
    rwa [hz w hw] at h2
  · intro ht
    obtain ⟨w, hw⟩ := List.exists_mem_of_ne_nil l hl
    obtain ⟨p, hp⟩ := hne w hw
    refine ⟨p, prism w, ⟨w, hw, rfl⟩, (mem_prism w (p, t)).2 ⟨hp, ?_⟩⟩
    rwa [hz w hw]

/-- The slice of the fused prisms of a coplanar wire list at the common base
height is the union of the regions. -/
theorem sliceAt_coplanar (l : List Wire) (z0 : ℝ) (hz : ∀ w ∈ l, w.z = z0) :
    sliceAt (combineSolids (l.map prism)) z0 = ⋃ w ∈ l, w.region := by
  ext p
  simp only [sliceAt, Set.mem_setOf_eq, mem_combineSolids, List.mem_map, Set.mem_iUnion,
    exists_prop]
  constructor
  · rintro ⟨S, ⟨w, hw, rfl⟩, hq⟩
    exact ⟨w, hw, ((mem_prism w (p, z0)).1 hq).1⟩
  · rintro ⟨w, hw, hp⟩
    refine ⟨prism w, ⟨w, hw, rfl⟩, (mem_prism w (p, z0)).2 ⟨hp, ?_⟩⟩
    rw [hz w hw]
    exact ⟨le_refl z0, by linarith⟩

/-- The cut loop of difference_pending computes the set difference with the
fused cutter prisms. -/
theorem foldl_cut (l : List Wire) (A : Set P3) :
    l.foldl (fun acc w => acc \ prism w) A = A \ combineSolids (l.map prism) := by
  induction l generalizing A with
  | nil => simp [combineSolids]
  | cons a l ih =>
      simp only [List.foldl_cons, List.map_cons]
      rw [ih (A \ prism a), Set.diff_diff]
      rfl


/-- C4: union_pending, difference_pending and combine_wires are no-ops when
fewer than 2 wires are available: the first two whenever the consolidated
pending-wire set has fewer than 2 wires, combine_wires whenever fewer than
2 wires are on the stack. The workplane is returned with stack and pending
state exactly as before. -/
theorem pending_ops_noop (cons : List Edge → List Wire → List Wire)
    (decompose : Set P2 → List (Set P2)) (s t : Workplane)
    (h1 : (cons s.pendingEdges s.pendingWires).length < 2)
    (h2 : (t.objects.filterMap fun o =>
        match o with | Obj.wire w => some w | Obj.solid _ => none).length < 2) :
    union_pending cons decompose s = s ∧ difference_pending cons decompose s = s
    ∧ combine_wires decompose t = t := by
  refine ⟨?_, ?_, ?_⟩
  · simp [union_pending, h1]
  · simp [difference_pending, h1]
  · simp [combine_wires, h2]

/-- Witness for C4 at a concrete workplane with no pending wires, no
pending edges and an empty stack. -/
theorem pending_ops_noop_witness :
    union_pending (fun _ _ => []) (fun r => [r]) ⟨[], [], []⟩ = ⟨[], [], []⟩
    ∧ difference_pending (fun _ _ => []) (fun r => [r]) ⟨[], [], []⟩ = ⟨[], [], []⟩
    ∧ combine_wires (fun r => [r]) ⟨[], [], []⟩ = ⟨[], [], []⟩ :=
  pending_ops_noop (fun _ _ => []) (fun r => [r]) ⟨[], [], []⟩ ⟨[], [], []⟩ (by simp) (by simp)

end WireAlg

namespace WireAlg

/-- The bottom face of the fused prisms of a nonempty coplanar wire list
sits at the common height and its region is the union of the regions, so
its boundary wires are the kernel decomposition of that union. -/
theorem bottomFaceWires_union (decompose : Set P2 → List (Set P2))
    (l : List Wire) (z0 : ℝ) (hl : l ≠ [])
    (hz : ∀ w ∈ l, w.z = z0) (hne : ∀ w ∈ l, w.region.Nonempty) :
    bottomFaceWires decompose (combineSolids (l.map prism))
      = (decompose (⋃ w ∈ l, w.region)).map fun r => ⟨r, z0⟩ := by
  have hinf : sInf (zSupport (combineSolids (l.map prism))) = z0 := by
    rw [zSupport_coplanar l z0 hl hz hne]
    exact csInf_Icc (by linarith)
  simp only [bottomFaceWires, hinf, sliceAt_coplanar l z0 hz]

/-- Height support of the cut solid of difference_pending, provided the
difference region is nonempty. -/
theorem zSupport_diff (w0 : Wire) (rest : List Wire) (z0 : ℝ)
    (hz0 : w0.z = z0) (hz : ∀ w ∈ rest, w.z = z0)
    (hdiff : (w0.region \ ⋃ w ∈ rest, w.region).Nonempty) :
    zSupport (prism w0 \ combineSolids (rest.map prism)) = Set.Icc z0 (z0 + 1) := by
  ext t
  simp only [zSupport, Set.mem_setOf_eq, Set.mem_diff]
  constructor
  · rintro ⟨p, hin, -⟩
    have h2 := ((mem_prism w0 (p, t)).1 hin).2
    rwa [hz0] at h2
  · intro ht
    obtain ⟨p, hp0, hpr⟩ := hdiff
    refine ⟨p, (mem_prism w0 (p, t)).2 ⟨hp0, by rwa [hz0]⟩, ?_⟩
    intro hmem
    rcases (mem_combineSolids _ _).1 hmem with ⟨S, hS, hq⟩
    rcases List.mem_map.1 hS with ⟨w, hw, rfl⟩
    exact hpr (Set.mem_biUnion hw ((mem_prism w (p, t)).1 hq).1)

/-- The slice of the cut solid of difference_pending at the common height is
the difference of the regions. -/
theorem sliceAt_diff (w0 : Wire) (rest : List Wire) (z0 : ℝ)
    (hz0 : w0.z = z0) (hz : ∀ w ∈ rest, w.z = z0) :
    sliceAt (prism w0 \ combineSolids (rest.map prism)) z0
      = w0.region \ ⋃ w ∈ rest, w.region := by
  have hsl : sliceAt (prism w0 \ combineSolids (rest.map prism)) z0
      = sliceAt (prism w0) z0 \ sliceAt (combineSolids (rest.map prism)) z0 := rfl
  rw [hsl, sliceAt_coplanar rest z0 hz, ← hz0, sliceAt_prism_base]

/-- The bottom face of the cut solid of difference_pending sits at the
common height and its region is the difference of the regions, so its
boundary wires are the kernel decomposition of that difference. -/
theorem bottomFaceWires_diff (decompose : Set P2 → List (Set P2))
    (w0 : Wire) (rest : List Wire) (z0 : ℝ)
    (hz0 : w0.z = z0) (hz : ∀ w ∈ rest, w.z = z0)
    (hdiff : (w0.region \ ⋃ w ∈ rest, w.region).Nonempty) :
    bottomFaceWires decompose (prism w0 \ combineSolids (rest.map prism))
      = (decompose (w0.region \ ⋃ w ∈ rest, w.region)).map fun r => ⟨r, z0⟩ := by
  have hinf : sInf (zSupport (prism w0 \ combineSolids (rest.map prism))) = z0 := by
    rw [zSupport_diff w0 rest z0 hz0 hz hdiff]
    exact csInf_Icc (by linarith)
  simp only [bottomFaceWires, hinf, sliceAt_diff w0 rest z0 hz0 hz]

end WireAlg

namespace WireAlg

/-- C3 counterexample: two disjoint coplanar closed pending wires,
enclosing the single points (0, 0) and (1, 1), with the consolidation that
returns the closed pending wires unchanged. Their consolidated 2D union is
the two-component region, whose bottom face has one boundary wire per
component; line 678 of the source keeps only the first
(self.ctx.pendingWires = [combined_wire.val()]), so the single resulting
pending wire encloses only the first component, which is not the
consolidated 2D union: the claim fails as stated. -/
theorem union_pending_drops_component :
    (union_pending (fun _ ws => ws)
        (componentDecompose {((0 : ℝ), (0 : ℝ))} {((1 : ℝ), (1 : ℝ))})
        ⟨[], [⟨{((0 : ℝ), (0 : ℝ))}, 0⟩, ⟨{((1 : ℝ), (1 : ℝ))}, 0⟩], []⟩).pendingWires
      = [⟨{((0 : ℝ), (0 : ℝ))}, 0⟩]
    ∧ ({((0 : ℝ), (0 : ℝ))} : Set P2)
        ≠ ({((0 : ℝ), (0 : ℝ))} : Set P2) ∪ {((1 : ℝ), (1 : ℝ))} := by
  constructor
  · have hz : ∀ w ∈ [(⟨{((0 : ℝ), (0 : ℝ))}, 0⟩ : Wire), ⟨{((1 : ℝ), (1 : ℝ))}, 0⟩],
        w.z = 0 := by simp
    have hne : ∀ w ∈ [(⟨{((0 : ℝ), (0 : ℝ))}, 0⟩ : Wire), ⟨{((1 : ℝ), (1 : ℝ))}, 0⟩],
        w.region.Nonempty := by simp
    have hbfu := bottomFaceWires_union
      (componentDecompose {((0 : ℝ), (0 : ℝ))} {((1 : ℝ), (1 : ℝ))})
      [⟨{((0 : ℝ), (0 : ℝ))}, 0⟩, ⟨{((1 : ℝ), (1 : ℝ))}, 0⟩] 0 (by simp) hz hne
    have hU : (⋃ w ∈ [(⟨{((0 : ℝ), (0 : ℝ))}, 0⟩ : Wire), ⟨{((1 : ℝ), (1 : ℝ))}, 0⟩],
        w.region) = {((0 : ℝ), (0 : ℝ))} ∪ {((1 : ℝ), (1 : ℝ))} := by simp
    rw [hU] at hbfu
    have hdecAB : componentDecompose {((0 : ℝ), (0 : ℝ))} {((1 : ℝ), (1 : ℝ))}
        ({((0 : ℝ), (0 : ℝ))} ∪ {((1 : ℝ), (1 : ℝ))})
        = [{((0 : ℝ), (0 : ℝ))}, {((1 : ℝ), (1 : ℝ))}] := by
      simp [componentDecompose]
    rw [hdecAB] at hbfu
    rw [show (union_pending (fun _ ws => ws)
          (componentDecompose {((0 : ℝ), (0 : ℝ))} {((1 : ℝ), (1 : ℝ))})
          ⟨[], [⟨{((0 : ℝ), (0 : ℝ))}, 0⟩, ⟨{((1 : ℝ), (1 : ℝ))}, 0⟩], []⟩).pendingWires
        = [(bottomFaceWires (componentDecompose {((0 : ℝ), (0 : ℝ))} {((1 : ℝ), (1 : ℝ))})
            (combineSolids (List.map prism
              [⟨{((0 : ℝ), (0 : ℝ))}, 0⟩, ⟨{((1 : ℝ), (1 : ℝ))}, 0⟩]))).headI] from rfl,
      hbfu]
    rfl
  · intro h
    have h1 : ((1 : ℝ), (1 : ℝ)) ∈ ({((0 : ℝ), (0 : ℝ))} : Set P2) := by
      rw [h]
      exact Set.mem_union_right _ rfl
    simp [Prod.ext_iff] at h1

/-- C3 as amended: for a workplane holding at least 2 coplanar closed
pending wires (no pending edges, the consolidation being the identity on
the already closed pending wires), and PROVIDED the bottom face of the
lifted 3D union has a single boundary wire (the 2D union is connected and
hole-free, hypothesis hdec), union_pending returns a workplane whose
pendingEdges list is empty and whose pendingWires holds exactly one wire,
the consolidated 2D union obtained by extruding every wire 1 unit, fusing
the solids with the 3D boolean union and extracting the boundary wire of
the face at the minimum along the extrusion direction. Without that
proviso the code keeps only the first boundary wire, as
union_pending_drops_component shows. difference_pending replaces the
pending state with ALL boundary wires of the bottom face of the first
prism minus the others (several when the difference has holes), with no
such proviso. -/
theorem union_difference_pending_spec
    (cons : List Edge → List Wire → List Wire)
    (decompose : Set P2 → List (Set P2))
    (os : List Obj) (w0 : Wire) (rest : List Wire) (z0 : ℝ)
    (hcons : cons [] (w0 :: rest) = w0 :: rest)
    (hrest : rest ≠ [])
    (hz0 : w0.z = z0) (hz : ∀ w ∈ rest, w.z = z0)
    (hne : ∀ w ∈ w0 :: rest, w.region.Nonempty)
    (hdiff : (w0.region \ ⋃ w ∈ rest, w.region).Nonempty)
    (hdec : decompose (⋃ w ∈ w0 :: rest, w.region) = [⋃ w ∈ w0 :: rest, w.region]) :
    union_pending cons decompose ⟨os, w0 :: rest, []⟩
      = ⟨[Obj.wire ⟨⋃ w ∈ w0 :: rest, w.region, z0⟩],
         [⟨⋃ w ∈ w0 :: rest, w.region, z0⟩], []⟩
    ∧ difference_pending cons decompose ⟨os, w0 :: rest, []⟩
      = ⟨(decompose (w0.region \ ⋃ w ∈ rest, w.region)).map (fun r => Obj.wire ⟨r, z0⟩),
         (decompose (w0.region \ ⋃ w ∈ rest, w.region)).map (fun r => ⟨r, z0⟩),
         []⟩ := by
  have hzall : ∀ w ∈ w0 :: rest, w.z = z0 := by
    intro w hw
    rcases List.mem_cons.1 hw with rfl | hw2
    · exact hz0
    · exact hz w hw2
  have hlen : ¬ ((w0 :: rest).length < 2) := by
    cases rest with
    | nil => exact absurd rfl hrest
    | cons b l => simp [List.length_cons]
  have hbfu := bottomFaceWires_union decompose (w0 :: rest) z0 (by simp) hzall hne
  rw [hdec] at hbfu
  have hbfd := bottomFaceWires_diff decompose w0 rest z0 hz0 hz hdiff
  constructor
  · simp only [List.map_cons, List.map_nil] at hbfu
    simp only [union_pending, hcons, hlen, if_false, List.map_cons, hbfu, List.map_nil,
      List.headI]
  · simp only [difference_pending, hcons, hlen, if_false, List.headI, List.tail_cons,
      foldl_cut, hbfd, List.map_cons, List.map_nil, List.map_map, Function.comp_def]

/-- Witness for the amended C3: two concrete coplanar wires at height 0,
the full plane and the single point at the origin, with the consolidation
that returns the closed pending wires unchanged and the single-wire
decomposition (the union is connected and hole-free). -/
theorem union_difference_pending_spec_witness :
    union_pending (fun _ ws => ws) (fun r => [r])
        ⟨[], ⟨Set.univ, 0⟩ :: [⟨{((0 : ℝ), (0 : ℝ))}, 0⟩], []⟩
      = ⟨[Obj.wire ⟨⋃ w ∈ (⟨Set.univ, 0⟩ : Wire) :: [⟨{((0 : ℝ), (0 : ℝ))}, 0⟩], w.region, 0⟩],
         [⟨⋃ w ∈ (⟨Set.univ, 0⟩ : Wire) :: [⟨{((0 : ℝ), (0 : ℝ))}, 0⟩], w.region, 0⟩], []⟩
    ∧ difference_pending (fun _ ws => ws) (fun r => [r])
        ⟨[], ⟨Set.univ, 0⟩ :: [⟨{((0 : ℝ), (0 : ℝ))}, 0⟩], []⟩
      = ⟨[Obj.wire ⟨(Set.univ : Set P2) \ ⋃ w ∈ [(⟨{((0 : ℝ), (0 : ℝ))}, 0⟩ : Wire)], w.region, 0⟩],
         [⟨(Set.univ : Set P2) \ ⋃ w ∈ [(⟨{((0 : ℝ), (0 : ℝ))}, 0⟩ : Wire)], w.region, 0⟩], []⟩ :=
  union_difference_pending_spec (fun _ ws => ws) (fun r => [r]) []
    ⟨Set.univ, 0⟩ [⟨{((0 : ℝ), (0 : ℝ))}, 0⟩] 0 rfl (by simp) rfl (by simp)
    (by simp) ⟨((1 : ℝ), (1 : ℝ)), by simp⟩ rfl

end WireAlg
